import Mathlib

/-!
Verification of the Chain Sentinel on-chain risk scanner.

The Python sources (`scanner.py`, `evm_scanner.py`, `clusters.py`) are shallowly
embedded below: Python floats are modelled as exact rationals (`ℚ`), Python
`int(x)` (truncation toward zero) as `pytrunc`, Python `round` on non-tie
values agrees with Mathlib's `round`, and fields that may hold the string
"N/A" instead of a number are modelled by the `Val` type.  Network fetches are
modelled by passing the fetched data as explicit arguments.
-/

namespace ChainSentinel

/-- A value in one of the scanner's data dicts: either a number or the "N/A"
placeholder string that the fetchers substitute on failure. -/
inductive Val where
  | num (q : ℚ)
  | na
deriving DecidableEq

/-- Python `int(q)` on a float/rational: truncation toward zero. -/
def pytrunc (q : ℚ) : ℤ := if 0 ≤ q then ⌊q⌋ else ⌈q⌉

/-- Python `round(q)`: round half to even (banker's rounding). On ties
`q = k + 1/2` it picks the even endpoint; elsewhere it is rounding to
nearest. -/
def pyround (q : ℚ) : ℤ := if q - ⌊q⌋ = 1 / 2 then 2 * round (q / 2) else round q

/-- Python `round(q, 2)`: rounding to two decimal places. -/
def round2 (q : ℚ) : ℚ := (pyround (q * 100) : ℚ) / 100

/-- `score_lp` from `scanner.py` (identical in `evm_scanner.py`): liquidity
bucket score.  A non-numeric input makes Python's `float()` raise, and the
handler returns 50. -/
def score_lp : Val → ℤ
  | Val.na => 50
  | Val.num liq =>
    if liq = 0 then 80
    else if liq < 1000 then 90
    else if liq < 5000 then 70
    else if liq < 20000 then 40
    else 20

/-- `score_supply` from `scanner.py` (identical in `evm_scanner.py`):
concentration bucket from `top10_pct` plus `int(gini * 40)`, clamped
above at 100.  Non-numeric fields contribute nothing. -/
def score_supply (top10 gini : Val) : ℤ :=
  let s1 : ℤ :=
    match top10 with
    | Val.num t => if t > 80 then 60 else if t > 50 then 40 else if t > 30 then 20 else 0
    | Val.na => 0
  let s2 : ℤ :=
    match gini with
    | Val.num g => pytrunc (g * 40)
    | Val.na => 0
  min (s1 + s2) 100

/-- The composite risk score from `scan_token` in `scanner.py`:
`int(ws*0.30 + ls*0.25 + ss*0.25 + ms*0.20)`. -/
def risk_score (ws ls ss ms : ℤ) : ℤ :=
  pytrunc ((ws : ℚ) * (30 / 100) + (ls : ℚ) * (25 / 100)
    + (ss : ℚ) * (25 / 100) + (ms : ℚ) * (20 / 100))

/-- Follows the spec's words, for comparison with `risk_score`:
`composite = round(walletScore*0.30 + liquidityScore*0.25 + supplyScore*0.25
+ adversarialScore*0.20)`. -/
def risk_score_spec_round (ws ls ss ms : ℤ) : ℤ :=
  round ((ws : ℚ) * (30 / 100) + (ls : ℚ) * (25 / 100)
    + (ss : ℚ) * (25 / 100) + (ms : ℚ) * (20 / 100))

/-- The inner sum of `compute_gini` from `scanner.py` (identical `_gini` in
`evm_scanner.py`): `sum((2*(i+1) - n - 1) * x for i, x in enumerate(s))`,
with `i` starting from the given index. -/
def giniSum (n : ℕ) : ℕ → List ℚ → ℚ
  | _, [] => 0
  | i, x :: xs => (2 * ((i : ℚ) + 1) - (n : ℚ) - 1) * x + giniSum n (i + 1) xs

/-- `compute_gini` from `scanner.py` (identical `_gini` in `evm_scanner.py`). -/
def compute_gini (shares : List ℚ) : ℚ :=
  if shares = [] then 0
  else
    let n := shares.length
    let s := List.insertionSort (· ≤ ·) shares
    let cumsum := giniSum n 0 s
    let total := s.sum
    if 0 < total then cumsum / ((n : ℚ) * total) else 0

/-- Follows the spec's words, for comparison with `score_supply`: the bucket
addend is exactly one of 60 (top10Pct>80), 40 (>50), 20 (>30) or 0, highest
threshold winning. -/
def supplyBucket (t : ℚ) : ℤ :=
  if t > 80 then 60 else if t > 50 then 40 else if t > 30 then 20 else 0

theorem pytrunc_of_nonneg {q : ℚ} (h : 0 ≤ q) : pytrunc q = ⌊q⌋ := by
  simp [pytrunc, h]

/-- C1 (amended): the Solana composite risk score is the weighted sum
`ws*0.30 + ls*0.25 + ss*0.25 + ms*0.20` truncated with `int(...)`, which on
non-negative sub-scores is the floor (not `round`); with all four sub-scores
at 100 the composite is exactly 100. -/
theorem risk_score_floor_weighted_sum :
    (∀ ws ls ss ms : ℤ, 0 ≤ ws → 0 ≤ ls → 0 ≤ ss → 0 ≤ ms →
      risk_score ws ls ss ms =
        ⌊(ws : ℚ) * (30 / 100) + (ls : ℚ) * (25 / 100)
          + (ss : ℚ) * (25 / 100) + (ms : ℚ) * (20 / 100)⌋) ∧
    risk_score 100 100 100 100 = 100 := by
  constructor
  · intro ws ls ss ms hw hl hs hm
    apply pytrunc_of_nonneg
    have hw' : (0 : ℚ) ≤ (ws : ℚ) := by exact_mod_cast hw
    have hl' : (0 : ℚ) ≤ (ls : ℚ) := by exact_mod_cast hl
    have hs' : (0 : ℚ) ≤ (ss : ℚ) := by exact_mod_cast hs
    have hm' : (0 : ℚ) ≤ (ms : ℚ) := by exact_mod_cast hm
    positivity
  · norm_num [risk_score, pytrunc]

/-- C1 witness: the amended formula evaluated at sub-scores (5, 0, 0, 0),
where the truncated weighted sum is ⌊3/2⌋ = 1. -/
theorem risk_score_floor_weighted_sum_witness :
    risk_score 5 0 0 0 =
      ⌊((5 : ℤ) : ℚ) * (30 / 100) + ((0 : ℤ) : ℚ) * (25 / 100)
        + ((0 : ℤ) : ℚ) * (25 / 100) + ((0 : ℤ) : ℚ) * (20 / 100)⌋ :=
  risk_score_floor_weighted_sum.1 5 0 0 0 (by decide) (by decide) (by decide) (by decide)

/-- C1 counterexample: the composite is not `round(...)` — at sub-scores
(5, 0, 0, 0) the code truncates 1.5 to 1 while rounding gives 2. -/
theorem risk_score_not_round :
    risk_score 5 0 0 0 = 1 ∧ risk_score_spec_round 5 0 0 0 = 2 ∧
      risk_score 5 0 0 0 ≠ risk_score_spec_round 5 0 0 0 := by
  have h1 : risk_score 5 0 0 0 = 1 := by norm_num [risk_score, pytrunc]
  have h2 : risk_score_spec_round 5 0 0 0 = 2 := by
    norm_num [risk_score_spec_round, round_eq]
  exact ⟨h1, h2, by rw [h1, h2]; decide⟩

/-- C3: the liquidity scorer maps 0 to 80, values below 1000 to 90, below
5000 to 70, below 20000 to 40 and everything at or above 20000 to 20, with
strict `<` comparisons so that a value exactly at a threshold falls into the
wider bucket. -/
theorem score_lp_buckets :
    score_lp (Val.num 0) = 80 ∧ score_lp (Val.num 500) = 90 ∧
    score_lp (Val.num 3000) = 70 ∧ score_lp (Val.num 15000) = 40 ∧
    score_lp (Val.num 100000) = 20 ∧ score_lp (Val.num 1000) = 70 ∧
    score_lp (Val.num 5000) = 40 ∧ score_lp (Val.num 20000) = 20 ∧
    (∀ q : ℚ, 20000 ≤ q → score_lp (Val.num q) = 20) := by
  refine ⟨by decide, by decide, by decide, by decide, by decide, by decide,
    by decide, by decide, ?_⟩
  intro q hq
  have h0 : ¬ q = 0 := by intro h; rw [h] at hq; norm_num at hq
  simp only [score_lp, if_neg h0, if_neg (by linarith : ¬ q < 1000),
    if_neg (by linarith : ¬ q < 5000), if_neg (by linarith : ¬ q < 20000)]

/-- C3 witness: the universal clause applied at liquidity 123456, which is
at least 20000 and scores 20. -/
theorem score_lp_buckets_witness :
    (20000 : ℚ) ≤ 123456 ∧ score_lp (Val.num 123456) = 20 :=
  ⟨by norm_num, score_lp_buckets.2.2.2.2.2.2.2.2 123456 (by norm_num)⟩

/-- C4: for a non-negative gini the supply scorer is the mutually exclusive
bucket addend (60 if top10Pct>80, else 40 if >50, else 20 if >30, else 0)
plus `floor(gini*40)`, clamped above at 100; at top10Pct = 100 and gini = 1
it returns exactly 100. -/
theorem score_supply_spec :
    (∀ t g : ℚ, 0 ≤ g →
      score_supply (Val.num t) (Val.num g) = min (supplyBucket t + ⌊g * 40⌋) 100) ∧
    score_supply (Val.num 100) (Val.num 1) = 100 ∧
    (∀ t g : ℚ, 0 ≤ g → score_supply (Val.num t) (Val.num g) ≤ 100) := by
  have key : ∀ t g : ℚ, 0 ≤ g →
      score_supply (Val.num t) (Val.num g) = min (supplyBucket t + ⌊g * 40⌋) 100 := by
    intro t g hg
    have : pytrunc (g * 40) = ⌊g * 40⌋ := pytrunc_of_nonneg (by positivity)
    simp [score_supply, supplyBucket, this]
  refine ⟨key, ?_, ?_⟩
  · rw [key 100 1 (by norm_num)]
    norm_num [supplyBucket]
  intro t g hg
  rw [key t g hg]
  exact min_le_right _ _

/-- C4 witness: the formula clause applied at top10Pct = 60, gini = 1/2,
giving min(40 + 20, 100) = 60. -/
theorem score_supply_spec_witness :
    score_supply (Val.num 60) (Val.num (1 / 2)) =
      min (supplyBucket 60 + ⌊(1 / 2 : ℚ) * 40⌋) 100 :=
  score_supply_spec.1 60 (1 / 2) (by norm_num)

/-- C5: the gini helper returns 0 on the empty list and 0 on every
single-element list. -/
theorem compute_gini_nil_singleton :
    compute_gini [] = 0 ∧ ∀ x : ℚ, compute_gini [x] = 0 := by
  constructor
  · simp [compute_gini]
  · intro x
    simp only [compute_gini, List.insertionSort, List.orderedInsert, giniSum,
      List.length_singleton, List.sum_cons, List.sum_nil]
    norm_num

/-- A prior token in the Solana dev-history report (`build_dev_report` in
`scanner.py`): its enriched market cap and whether it was found trading. -/
structure DevToken where
  market_cap : ℚ
  on_dex : Bool
deriving DecidableEq

/-- The risk-assessment branch of `build_dev_report` in `scanner.py`.
`biggest` is the first on-dex token (the caller pre-sorts by market cap
descending, so it is the best prior launch). -/
def build_dev_report_risk (tokens : List DevToken) : String :=
  let total := tokens.length
  let on_dex := tokens.filter (fun t => t.on_dex)
  let dead := tokens.filter (fun t => !t.on_dex)
  let biggest_mc : ℚ :=
    match on_dex.head? with
    | some t => t.market_cap
    | none => 0
  if total = 0 then "🟡 No history found"
  else if dead.length > on_dex.length ∧ total > 2 then "🔴 Serial launcher"
  else if biggest_mc > 1000000 then "🟢 Proven dev"
  else if biggest_mc > 100000 then "🟡 Some track record"
  else "🟠 Low track record"

/-- A prior token of the same deployer in `get_evm_dev_history` in
`evm_scanner.py` (only its market cap matters for the rating). -/
structure EvmDevToken where
  mc : ℚ
deriving DecidableEq

/-- The rating branch of `get_evm_dev_history` in `evm_scanner.py`:
`biggest_mc = max(mc, default=0)`, `dead = #{mc == 0}`, and the
market-cap branches are checked before the dead-ratio branch. -/
def get_evm_dev_history_risk (deployed : List EvmDevToken) : String :=
  let total := deployed.length
  let biggest_mc : ℚ := ((deployed.map (fun t => t.mc)).maximum).unbot' 0
  let dead := (deployed.filter (fun t => t.mc = 0)).length
  if biggest_mc ≥ 500000 then "🟢 Proven dev"
  else if biggest_mc ≥ 100000 then "🟡 Some track record"
  else if total = 0 then "🆕 First deployment"
  else if (dead : ℚ) > (total : ℚ) * (7 / 10) then "🔴 Serial deployer"
  else "🟠 Low track record"

/-- C2 (amended): in the EVM rater any prior token with market cap at least
$500K forces the PROVEN rating no matter how many prior tokens are dead; in
the Solana `build_dev_report` the serial-launcher branch is checked first,
so one on-dex $2M prior token plus three dead ones is rated Serial launcher,
not Proven dev. -/
theorem dev_rating_market_cap_dominance :
    (∀ (l : List EvmDevToken) (t : EvmDevToken), t ∈ l → 500000 ≤ t.mc →
      get_evm_dev_history_risk l = "🟢 Proven dev") ∧
    build_dev_report_risk
      [⟨2000000, true⟩, ⟨0, false⟩, ⟨0, false⟩, ⟨0, false⟩] = "🔴 Serial launcher" := by
  constructor
  · intro l t ht hmc
    have hmem : t.mc ∈ (l.map (fun t => t.mc)) := List.mem_map_of_mem _ ht
    have hle : (t.mc : WithBot ℚ) ≤ (l.map (fun t => t.mc)).maximum :=
      List.le_maximum_of_mem' hmem
    have hmax : (500000 : ℚ) ≤ ((l.map (fun t => t.mc)).maximum).unbot' 0 := by
      cases hmb : (l.map (fun t => t.mc)).maximum with
      | bot => rw [hmb] at hle; exact absurd hle (by simp)
      | coe q =>
        rw [hmb] at hle
        have : t.mc ≤ q := by exact_mod_cast hle
        simpa [WithBot.unbot'] using le_trans hmc this
    simp only [get_evm_dev_history_risk]
    rw [if_pos hmax]
  · rfl

/-- C2 witness: the EVM clause applied to the concrete deployer history
[$2M, dead, dead, dead], whose rating is Proven dev. -/
theorem dev_rating_market_cap_dominance_witness :
    get_evm_dev_history_risk [⟨2000000⟩, ⟨0⟩, ⟨0⟩, ⟨0⟩] = "🟢 Proven dev" :=
  dev_rating_market_cap_dominance.1 [⟨2000000⟩, ⟨0⟩, ⟨0⟩, ⟨0⟩] ⟨2000000⟩
    (by simp) (by norm_num)

/-- C2 counterexample: in the Solana dev report a deployer with one prior
token at $2M market cap and three dead prior tokens is rated Serial
launcher, not Proven dev — the dead-ratio branch dominates there. -/
theorem dev_rating_solana_serial_first :
    build_dev_report_risk
        [⟨2000000, true⟩, ⟨0, false⟩, ⟨0, false⟩, ⟨0, false⟩] = "🔴 Serial launcher" ∧
    build_dev_report_risk
        [⟨2000000, true⟩, ⟨0, false⟩, ⟨0, false⟩, ⟨0, false⟩] ≠ "🟢 Proven dev" := by
  exact ⟨rfl, by decide⟩

/-- `EXCLUDED_FUNDRS` from `clusters.py`: infrastructure addresses that never
count as funding wallets. -/
def EXCLUDED_FUNDRS : List String :=
  ["11111111111111111111111111111111",
   "TokenkegQfeZyiNwAJbNbGKPFXCWuBvf9Ss623VQ5DA",
   "ATokenGPvbdGVxr1b2hvZbsiqW5xWH25efTNsLJe1bfE",
   "So11111111111111111111111111111111111111112",
   "ComputeBudget111111111111111111111111111111",
   "6EF8rrecthR5Dkzon8Nwu78hRvfCKubJ14M5uBEwF6P",
   "675kPX9MHTjS2zt1qfr1NYHuzeLXfQM9H24wFSUt1Mp8"]

/-- A top holder as returned by `get_top_holders` in `clusters.py`. -/
structure Holder where
  owner : String
  ui_amount : ℚ
  pct : ℚ
deriving DecidableEq

/-- An entry of `holder_funder_map` in `clusters.py` (keyed by holder owner). -/
structure FundEntry where
  owner : String
  funder : String
  balance_pct : ℚ
  ui_amount : ℚ
deriving DecidableEq

/-- A holder inside a cluster (`clusters.py` step 4). -/
structure HolderShare where
  wallet : String
  balance_pct : ℚ
  ui_amount : ℚ
deriving DecidableEq

/-- A detected cluster (`clusters.py` step 4): one funder that funded three
or more of the scanned holders. -/
structure Cluster where
  funder : String
  holders : List HolderShare
  holder_count : ℕ
  combined_supply_pct : ℚ
deriving DecidableEq

/-- Python dict insertion keyed by `owner`: an existing key is updated in
place, a new key is appended. -/
def dictInsert (e : FundEntry) : List FundEntry → List FundEntry
  | [] => [e]
  | x :: xs => if x.owner = e.owner then e :: xs else x :: dictInsert e xs

/-- Step 3 of `find_wallet_clusters`: build `holder_funder_map` from the
zipped holders and funding results, keeping only truthy funders outside
`EXCLUDED_FUNDRS`. -/
def build_map (l : List (Holder × Option String)) : List FundEntry :=
  l.foldl
    (fun m hf =>
      match hf.2 with
      | some f =>
        if f = "" ∨ f ∈ EXCLUDED_FUNDRS then m
        else dictInsert ⟨hf.1.owner, f, hf.1.pct, hf.1.ui_amount⟩ m
      | none => m)
    []

/-- `defaultdict(list)` append keyed by funder: groups keep first-appearance
order and holders are appended at the back of their group. -/
def addToGroup (f : String) (h : HolderShare) :
    List (String × List HolderShare) → List (String × List HolderShare)
  | [] => [(f, [h])]
  | (g, hs) :: rest =>
    if g = f then (g, hs ++ [h]) :: rest else (g, hs) :: addToGroup f h rest

/-- Step 4 of `find_wallet_clusters`: group `holder_funder_map` by funder. -/
def group_by_funder (m : List FundEntry) : List (String × List HolderShare) :=
  m.foldl (fun acc e => addToGroup e.funder ⟨e.owner, e.balance_pct, e.ui_amount⟩ acc) []

/-- Step 4 of `find_wallet_clusters`: a cabal is a funder with three or more
funded holders; its combined supply share is the 2-decimal rounding of the
holders' balance percentages. -/
def clusters_of (m : List FundEntry) : List Cluster :=
  (group_by_funder m).filterMap fun g =>
    if 3 ≤ g.2.length then
      some ⟨g.1, g.2, g.2.length, round2 ((g.2.map (fun h => h.balance_pct)).sum)⟩
    else none

/-- `clusters.sort(key=combined_supply_pct, reverse=True)`. -/
def sort_clusters (cls : List Cluster) : List Cluster :=
  List.insertionSort (fun a b => b.combined_supply_pct ≤ a.combined_supply_pct) cls

/-- `calculate_cabal_score` from `clusters.py`: 0 without clusters, otherwise
cluster-count points plus combined-supply points plus cabal-holder-share
points, clamped at 100.  The `holders` argument is accepted as in the source
but unused there. -/
def calculate_cabal_score (clusters : List Cluster) (holders : List Holder)
    (holder_funder_map : List FundEntry) : ℤ :=
  if clusters = [] then 0
  else
    let score1 := min ((clusters.length : ℤ) * 10) 30
    let total_cabal_pct := (clusters.map (fun c => c.combined_supply_pct)).sum
    let score2 := min (pytrunc (total_cabal_pct * (15 / 10))) 40
    let cabal_holders := (clusters.flatMap (fun c => c.holders.map (fun h => h.wallet))).dedup
    let score3 : ℤ :=
      if holder_funder_map = [] then 0
      else min (pytrunc (((cabal_holders.length : ℚ) / (holder_funder_map.length : ℚ)) * 30)) 30
    min (score1 + score2 + score3) 100

/-- The full report assembled by `find_wallet_clusters` on success. -/
structure ClusterReport where
  mint : String
  total_holders_scanned : ℕ
  holders_with_known_funder : ℕ
  clusters : List Cluster
  cluster_count : ℕ
  cabal_probability : ℤ
deriving DecidableEq

/-- Result of the cluster pipeline: a structured error dict or the report. -/
inductive ClusterResult where
  | error (msg : String)
  | ok (r : ClusterReport)
deriving DecidableEq

/-- `find_wallet_clusters` from `clusters.py`, with the two network fetches
passed in as data: `holders` is the `get_top_holders` result (`[]` both on
fetch failure and on an empty holder set) and `funding_results` the
per-holder `get_funding_wallet` results.  The networkx graph payload is not
modelled. -/
def find_wallet_clusters (mint : String) (holders : List Holder)
    (funding_results : List (Option String)) : ClusterResult :=
  if holders = [] then ClusterResult.error "Could not fetch holders for this token."
  else
    let m := build_map (holders.zip funding_results)
    let cls := sort_clusters (clusters_of m)
    ClusterResult.ok
      ⟨mint, holders.length, m.length, cls, cls.length,
        calculate_cabal_score cls holders m⟩

/-- The clusters carried by a pipeline result (none on error). -/
def result_clusters : ClusterResult → List Cluster
  | ClusterResult.error _ => []
  | ClusterResult.ok r => r.clusters

/-- C9: when the top-holder fetch fails or yields no holders (both surface
as an empty holder list from `get_top_holders`), the pipeline returns the
single structured error result and skips funding resolution, grouping,
scoring and graph building. -/
theorem find_wallet_clusters_no_holders :
    ∀ (mint : String) (funding_results : List (Option String)),
      find_wallet_clusters mint [] funding_results =
        ClusterResult.error "Could not fetch holders for this token." := by
  intro mint funding_results
  rfl

/-- Follows the spec's words, for comparison with `calculate_cabal_score`:
`min(clusterCount*10, 30) + min(round(ΣcombinedSupplyPct * 1.5), 40)
+ min(round(cabalHolderRatio*30), 30)` clamped to 100, where the cabal holder
share is (distinct holders in any cluster) / (holders with a known funder). -/
def cabal_score_claimed (clusters : List Cluster) (holder_funder_map : List FundEntry) : ℤ :=
  if clusters = [] then 0
  else
    min
      (min ((clusters.length : ℤ) * 10) 30
        + min (round ((clusters.map (fun c => c.combined_supply_pct)).sum * (15 / 10))) 40
        + min (round ((((clusters.flatMap (fun c => c.holders.map (fun h => h.wallet))).dedup.length : ℚ)
            / (holder_funder_map.length : ℚ)) * 30)) 30)
      100

/-- The amended cabal-score formula: as `cabal_score_claimed` but with
Python's `int(...)` truncation in place of `round(...)`. -/
def cabal_score_amended (clusters : List Cluster) (holder_funder_map : List FundEntry) : ℤ :=
  if clusters = [] then 0
  else
    min
      (min ((clusters.length : ℤ) * 10) 30
        + min (pytrunc ((clusters.map (fun c => c.combined_supply_pct)).sum * (15 / 10))) 40
        + min (pytrunc ((((clusters.flatMap (fun c => c.holders.map (fun h => h.wallet))).dedup.length : ℚ)
            / (holder_funder_map.length : ℚ)) * 30)) 30)
      100

/-- C8 (amended): the cabal-probability score is the claimed three-part sum
clamped to 100, but with `int(...)` truncation rather than `round(...)`; it
is 0 whenever no clusters were found, regardless of the holder data. -/
theorem calculate_cabal_score_formula :
    (∀ (cls : List Cluster) (hs : List Holder) (m : List FundEntry),
      calculate_cabal_score cls hs m = cabal_score_amended cls m) ∧
    (∀ (hs : List Holder) (m : List FundEntry), calculate_cabal_score [] hs m = 0) := by
  constructor
  · intro cls hs m
    by_cases hcls : cls = []
    · simp [calculate_cabal_score, cabal_score_amended, hcls]
    · by_cases hm : m = []
      · simp [calculate_cabal_score, cabal_score_amended, hcls, hm, pytrunc]
      · simp [calculate_cabal_score, cabal_score_amended, hcls, hm]
  · intro hs m
    simp [calculate_cabal_score]

/-- C8 counterexample: for one cluster of three holders controlling a
combined 1% of supply, drawn from a funder map of three holders, the code
scores 10 + int(1.5) + 30 = 41 while the claimed rounding formula gives
10 + round(1.5) + 30 = 42. -/
theorem calculate_cabal_score_not_round :
    calculate_cabal_score
        [⟨"F", [⟨"a", 2/5, 100⟩, ⟨"b", 3/10, 75⟩, ⟨"c", 3/10, 75⟩], 3, 1⟩] []
        [⟨"a", "F", 2/5, 100⟩, ⟨"b", "F", 3/10, 75⟩, ⟨"c", "F", 3/10, 75⟩] = 41 ∧
    cabal_score_claimed
        [⟨"F", [⟨"a", 2/5, 100⟩, ⟨"b", 3/10, 75⟩, ⟨"c", 3/10, 75⟩], 3, 1⟩]
        [⟨"a", "F", 2/5, 100⟩, ⟨"b", "F", 3/10, 75⟩, ⟨"c", "F", 3/10, 75⟩] = 42 := by
  have hd : (([⟨"F", [⟨"a", 2/5, 100⟩, ⟨"b", 3/10, 75⟩, ⟨"c", 3/10, 75⟩], 3, 1⟩] :
      List Cluster).flatMap (fun c => c.holders.map (fun h => h.wallet))).dedup
      = ["a", "b", "c"] := by decide
  constructor
  · rw [calculate_cabal_score, if_neg (by simp)]
    rw [hd]
    norm_num [pytrunc]
    decide
  · rw [cabal_score_claimed, if_neg (by simp)]
    rw [hd]
    norm_num [round_eq]

/-- C7: with five holders of which exactly three share the non-infrastructure
funder F and exactly two share the funder G, the pipeline finds exactly one
cluster, whose funder is F; G's group of two never becomes a cluster. -/
theorem cluster_needs_three_holders (mint F G : String)
    (hF : ¬(F = "" ∨ F ∈ EXCLUDED_FUNDRS))
    (hG : ¬(G = "" ∨ G ∈ EXCLUDED_FUNDRS))
    (hFG : F ≠ G)
    (a1 a2 a3 a4 a5 p1 p2 p3 p4 p5 : ℚ) :
    (result_clusters (find_wallet_clusters mint
        [⟨"h1", a1, p1⟩, ⟨"h2", a2, p2⟩, ⟨"h3", a3, p3⟩,
         ⟨"h4", a4, p4⟩, ⟨"h5", a5, p5⟩]
        [some F, some F, some F, some G, some G])).map (fun c => c.funder) = [F] := by
  simp [find_wallet_clusters, build_map, dictInsert, group_by_funder, addToGroup,
    clusters_of, sort_clusters, result_clusters, hF, hG, hFG, List.insertionSort,
    List.orderedInsert]

/-- C7 witness: the scenario with concrete funders FunderOne and FunderTwo
and concrete balances. -/
theorem cluster_needs_three_holders_witness :
    (result_clusters (find_wallet_clusters "mint"
        [⟨"h1", 10, 1⟩, ⟨"h2", 20, 2⟩, ⟨"h3", 30, 3⟩, ⟨"h4", 40, 4⟩, ⟨"h5", 50, 5⟩]
        [some "FunderOne", some "FunderOne", some "FunderOne",
         some "FunderTwo", some "FunderTwo"])).map (fun c => c.funder) = ["FunderOne"] :=
  cluster_needs_three_holders "mint" "FunderOne" "FunderTwo"
    (by decide) (by decide) (by decide) 10 20 30 40 50 1 2 3 4 5

theorem giniSum_eq_sum (n : ℕ) : ∀ (l : List ℚ) (i : ℕ),
    giniSum n i l = ∑ j ∈ Finset.range l.length,
      (2 * ((i : ℚ) + (j : ℚ) + 1) - (n : ℚ) - 1) * l.getD j 0
  | [], i => by simp [giniSum]
  | x :: xs, i => by
    rw [giniSum, giniSum_eq_sum n xs (i + 1), List.length_cons, Finset.sum_range_succ']
    simp only [List.getD_cons_zero, List.getD_cons_succ, Nat.cast_zero, Nat.cast_add,
      Nat.cast_one, add_zero]
    rw [add_comm]
    congr 1
    exact Finset.sum_congr rfl fun j hj => by ring

theorem sum_range_getD (l : List ℚ) :
    ∑ j ∈ Finset.range l.length, l.getD j 0 = l.sum := by
  induction l with
  | nil => simp
  | cons x xs ih =>
    rw [List.length_cons, Finset.sum_range_succ']
    simp only [List.getD_cons_zero, List.getD_cons_succ, List.sum_cons]
    rw [ih, add_comm]

theorem giniSum_nonneg_of_sorted (s : List ℚ) (hsorted : s.Sorted (· ≤ ·)) :
    0 ≤ giniSum s.length 0 s := by
  set n := s.length with hn
  set f : ℕ → ℚ := fun j => (2 * ((0 : ℚ) + (j : ℚ) + 1) - (n : ℚ) - 1) * s.getD j 0 with hf
  have hrepr : giniSum n 0 s = ∑ j ∈ Finset.range n, f j := giniSum_eq_sum n s 0
  have hrefl : ∑ j ∈ Finset.range n, f (n - 1 - j) = ∑ j ∈ Finset.range n, f j :=
    Finset.sum_range_reflect f n
  have hterm : ∀ j ∈ Finset.range n, 0 ≤ f j + f (n - 1 - j) := by
    intro j hj
    rw [Finset.mem_range] at hj
    have hj1 : j ≤ n - 1 := Nat.le_pred_of_lt hj
    have h1n : 1 ≤ n := Nat.one_le_iff_ne_zero.mpr (by omega)
    have hkn : n - 1 - j < n := by omega
    have hcast : ((n - 1 - j : ℕ) : ℚ) = (n : ℚ) - 1 - (j : ℚ) := by
      rw [Nat.cast_sub hj1, Nat.cast_sub h1n, Nat.cast_one]
    have hgj : s.getD j 0 = s.get ⟨j, by rw [← hn]; exact hj⟩ := List.getD_eq_get s 0 _
    have hgk : s.getD (n - 1 - j) 0 = s.get ⟨n - 1 - j, by rw [← hn]; exact hkn⟩ :=
      List.getD_eq_get s 0 _
    by_cases hcase : n ≤ 2 * j + 1
    · have hle : n - 1 - j ≤ j := by omega
      have hss : s.get ⟨n - 1 - j, by rw [← hn]; exact hkn⟩ ≤ s.get ⟨j, by rw [← hn]; exact hj⟩ :=
        hsorted.rel_get_of_le hle
      have hcoef : (0 : ℚ) ≤ 2 * ((0 : ℚ) + (j : ℚ) + 1) - (n : ℚ) - 1 := by
        have : ((n : ℚ)) ≤ 2 * (j : ℚ) + 1 := by exact_mod_cast hcase
        linarith
      rw [hf]
      simp only [hcast, hgj, hgk]
      nlinarith [mul_nonneg hcoef (sub_nonneg.mpr hss)]
    · have hle : j ≤ n - 1 - j := by omega
      have hss : s.get ⟨j, by rw [← hn]; exact hj⟩ ≤ s.get ⟨n - 1 - j, by rw [← hn]; exact hkn⟩ :=
        hsorted.rel_get_of_le hle
      have hcoef : 2 * ((0 : ℚ) + (j : ℚ) + 1) - (n : ℚ) - 1 ≤ 0 := by
        have : (2 * j + 1 : ℚ) < (n : ℚ) := by exact_mod_cast Nat.lt_of_not_le hcase
        linarith
      rw [hf]
      simp only [hcast, hgj, hgk]
      nlinarith [mul_nonneg (neg_nonneg.mpr hcoef) (sub_nonneg.mpr hss)]
  have h2 : 0 ≤ ∑ j ∈ Finset.range n, (f j + f (n - 1 - j)) :=
    Finset.sum_nonneg hterm
  rw [Finset.sum_add_distrib, hrefl] at h2
  rw [hrepr]
  linarith

theorem giniSum_le_of_nonneg (s : List ℚ) (hnn : ∀ x ∈ s, 0 ≤ x) :
    giniSum s.length 0 s ≤ ((s.length : ℚ) - 1) * s.sum := by
  set n := s.length with hn
  rw [giniSum_eq_sum n s 0, ← sum_range_getD s, ← hn, Finset.mul_sum]
  refine Finset.sum_le_sum fun j hj => ?_
  rw [Finset.mem_range] at hj
  have hx : 0 ≤ s.getD j 0 := by
    rcases Nat.lt_or_ge j s.length with hlt | hge
    · rw [List.getD_eq_getElem s 0 hlt]
      exact hnn _ (List.getElem_mem hlt)
    · rw [List.getD_eq_default s 0 hge]
  have hcoef : 2 * ((0 : ℚ) + (j : ℚ) + 1) - (n : ℚ) - 1 ≤ (n : ℚ) - 1 := by
    have : (j : ℚ) + 1 ≤ (n : ℚ) := by exact_mod_cast hj
    linarith
  exact mul_le_mul_of_nonneg_right hcoef hx

/-- C6: on a non-empty list of non-negative shares summing to 1, the gini
value — the sorted weighted sum divided by `n * total` — lies between 0
and 1. -/
theorem compute_gini_bounded (l : List ℚ) (h0 : l ≠ [])
    (hnn : ∀ x ∈ l, 0 ≤ x) (hsum : l.sum = 1) :
    0 ≤ compute_gini l ∧ compute_gini l ≤ 1 := by
  have hp : (List.insertionSort (· ≤ ·) l).Perm l := List.perm_insertionSort _ l
  set s := List.insertionSort (· ≤ ·) l with hs
  have hs_sum : s.sum = 1 := (hp.sum_eq).trans hsum
  have hs_len : s.length = l.length := hp.length_eq
  have hs_nn : ∀ x ∈ s, 0 ≤ x := fun x hx => hnn x (hp.subset hx)
  have hsorted : s.Sorted (· ≤ ·) := List.sorted_insertionSort _ l
  have hlpos : 0 < l.length := List.length_pos.mpr h0
  have hnum0 : 0 ≤ giniSum l.length 0 s := by
    rw [← hs_len]; exact giniSum_nonneg_of_sorted s hsorted
  have hnum1 : giniSum l.length 0 s ≤ (l.length : ℚ) - 1 := by
    have := giniSum_le_of_nonneg s hs_nn
    rw [hs_len, hs_sum, mul_one] at this
    exact this
  have hden : (0 : ℚ) < (l.length : ℚ) * s.sum := by
    rw [hs_sum, mul_one]; exact_mod_cast hlpos
  rw [compute_gini, if_neg h0, ← hs]
  rw [if_pos (by rw [hs_sum]; norm_num)]
  constructor
  · exact div_nonneg hnum0 (le_of_lt hden)
  · rw [div_le_one hden]
    rw [hs_sum, mul_one]
    linarith

/-- C6 witness: the bounds applied to the single full share [1]. -/
theorem compute_gini_bounded_witness :
    0 ≤ compute_gini [1] ∧ compute_gini [1] ≤ 1 :=
  compute_gini_bounded [1] (by simp) (by norm_num) (by norm_num)

/-- C10: `compute_gini` sorts its input, so it is invariant under
permutation of the shares — callers need not pre-sort. -/
theorem compute_gini_perm_invariant (l l' : List ℚ) (h : l.Perm l') :
    compute_gini l = compute_gini l' := by
  by_cases hl : l = []
  · subst hl
    rw [(h.symm).eq_nil]
  · have hl' : l' ≠ [] := fun he => hl ((h.trans (he ▸ List.Perm.refl _)).eq_nil)
    have hlen : l.length = l'.length := h.length_eq
    have hsort : List.insertionSort (· ≤ ·) l = List.insertionSort (· ≤ ·) l' :=
      List.eq_of_perm_of_sorted
        ((List.perm_insertionSort _ l).trans (h.trans (List.perm_insertionSort _ l').symm))
        (List.sorted_insertionSort _ l) (List.sorted_insertionSort _ l')
    rw [compute_gini, compute_gini, if_neg hl, if_neg hl', hlen, hsort]

/-- C10 witness: the invariance applied to the swap of [1, 2]. -/
theorem compute_gini_perm_invariant_witness :
    compute_gini [1, 2] = compute_gini [2, 1] :=
  compute_gini_perm_invariant [1, 2] [2, 1] (List.Perm.swap 2 1 [])

end ChainSentinel
